import Mathlib

/-
Verification development for the hive/key lifecycle layer of the winreg2
crate (src/hive.rs). The visible source file is translated directly; the
external collaborators it calls into (the path codec converting path-like
inputs to wide strings, and the native registry backend in the key module)
are not part of the visible source and are modelled from the specification,
as marked on each such definition.
-/

set_option autoImplicit false

namespace Winreg

/-- A wide string: the sequence of 16-bit code units of an encoded registry
path or hive-file name (the payload of a U16CString, terminator excluded). -/
abbrev U16Str := List Nat

/-- The unified error taxonomy of the layer. The encoding failure carries
the position of the offending embedded terminator, mirroring the nul-error
value the codec reports; the remaining constructors are the backend failure
classes the specification distinguishes. -/
inductive Error where
  | nulError (pos : Nat)
  | notFound
  | permissionDenied
  | alreadyExists
  | nonEmpty
  | inUse
  | other (code : Nat)
  deriving DecidableEq

/-- Modelled from the spec: the Path Codec (U16CString conversion, an
external collaborator). It converts a path-like input into the canonical
wide form and fails with an encoding error if the input contains an
embedded terminator character, reporting its position. -/
def u16cstring_try_from (v : List Nat) : Except Error U16Str :=
  match v.findIdx? (· = 0) with
  | some i => .error (.nulError i)
  | none => .ok v

/-- All hives of the Windows Registry (src/hive.rs, lines 14-23). -/
inductive Hive where
  | ClassesRoot
  | CurrentConfig
  | CurrentUser
  | CurrentUserLocalSettings
  | LocalMachine
  | PerformanceData
  | Users
  deriving DecidableEq, Fintype

/-- The native root handle of each hive (src/hive.rs, lines 26-37). The
numeric values are the fixed winapi pseudo-handle constants the match arms
name (HKEY_CLASSES_ROOT is 0x80000000 and so on). -/
def Hive.as_hkey : Hive → Nat
  | .ClassesRoot => 0x80000000
  | .CurrentConfig => 0x80000005
  | .CurrentUser => 0x80000001
  | .CurrentUserLocalSettings => 0x80000007
  | .LocalMachine => 0x80000002
  | .PerformanceData => 0x80000004
  | .Users => 0x80000003

/-- The Display implementation for Hive (src/hive.rs, lines 113-125). -/
def Hive.fmt : Hive → String
  | .ClassesRoot => "HKEY_CLASSES_ROOT"
  | .CurrentConfig => "HKEY_CURRENT_CONFIG"
  | .CurrentUser => "HKEY_CURRENT_USER"
  | .CurrentUserLocalSettings => "HKEY_CURRENT_USER_LOCAL_SETTINGS"
  | .LocalMachine => "HKEY_LOCAL_MACHINE"
  | .PerformanceData => "HKEY_PERFORMANCE_DATA"
  | .Users => "HKEY_USERS"

/-- Modelled from the spec: an opaque Security Descriptor (created by an
external collaborator, passed through unmodified; the core does not
interpret its bits). -/
structure Security where
  rights : Nat
  deriving DecidableEq

/-- Modelled from the spec: a registry key tree as the native backend sees
it under one root. Each node owns a finite association of child names to
child subtrees. Values inside keys are outside this layer. -/
inductive RegNode where
  | mk (children : List (U16Str × RegNode)) : RegNode

/-- The child list of a node. -/
def RegNode.children : RegNode → List (U16Str × RegNode)
  | .mk cs => cs

/-- Look up a child by name in a child list. -/
def findChild : List (U16Str × RegNode) → U16Str → Option RegNode
  | [], _ => none
  | (k, v) :: rest, name => if k = name then some v else findChild rest name

/-- Replace the subtree bound to a name in a child list, appending a fresh
binding when the name is absent. -/
def setChild : List (U16Str × RegNode) → U16Str → RegNode → List (U16Str × RegNode)
  | [], name, sub => [(name, sub)]
  | (k, v) :: rest, name, sub =>
      if k = name then (k, sub) :: rest else (k, v) :: setChild rest name sub

/-- Remove every binding of a name from a child list. -/
def removeChild : List (U16Str × RegNode) → U16Str → List (U16Str × RegNode)
  | [], _ => []
  | (k, v) :: rest, name =>
      if k = name then removeChild rest name else (k, v) :: removeChild rest name

/-- Resolve a component path to the subtree it denotes, when present. -/
def RegNode.lookup : RegNode → List U16Str → Option RegNode
  | t, [] => some t
  | .mk cs, name :: rest =>
      match findChild cs name with
      | none => none
      | some c => c.lookup rest

/-- Modelled from the spec: creation of a key together with any missing
intermediate keys, leaving every key already on the path as it is. -/
def RegNode.createAt : RegNode → List U16Str → RegNode
  | t, [] => t
  | .mk cs, name :: rest =>
      .mk (setChild cs name (((findChild cs name).getD (.mk [])).createAt rest))

/-- Graft a given subtree at a component path, creating any missing
intermediate keys on the way. -/
def RegNode.setAt : RegNode → List U16Str → RegNode → RegNode
  | t, [], _ => t
  | .mk cs, [name], sub => .mk (setChild cs name sub)
  | .mk cs, name :: rest, sub =>
      .mk (setChild cs name (((findChild cs name).getD (.mk [])).setAt rest sub))

/-- Remove the key at a component path together with its whole subtree. -/
def RegNode.deleteAt : RegNode → List U16Str → RegNode
  | t, [] => t
  | .mk cs, [name] => .mk (removeChild cs name)
  | .mk cs, name :: rest =>
      match findChild cs name with
      | none => .mk cs
      | some c => .mk (setChild cs name (c.deleteAt rest))

/-- Modelled from the spec: the native backend interprets an encoded wide
path as its backslash-separated component names (code unit 92). -/
def splitPath : U16Str → List U16Str
  | [] => [[]]
  | c :: rest =>
      if c = 92 then [] :: splitPath rest
      else
        match splitPath rest with
        | [] => [[c]]
        | comp :: comps => (c :: comp) :: comps

/-- A native handle: the opaque OS-level reference to an open key. In the
model a handle is identified by the key it refers to, namely the root
pseudo-handle it was opened under and the component path of the key. -/
structure NativeHandle where
  root : Nat
  keyPath : List U16Str
  deriving DecidableEq

/-- A registry key (the Key Handle entity): the result of a successful open
or create, bundling the originating hive, the native handle and the encoded
path used to reach it. -/
structure RegKey where
  hive : Hive
  handle : NativeHandle
  path : U16Str

/-- Modelled from the spec: the native open entry point. Succeeds exactly
when the key exists under the given root tree; the security descriptor is
passed through uninterpreted. -/
def key.open_hkey (hkey : Nat) (path : U16Str) (sec : Security) (tree : RegNode) :
    Except Error NativeHandle :=
  match tree.lookup (splitPath path) with
  | some _ => .ok ⟨hkey, splitPath path⟩
  | none => .error .notFound

/-- Modelled from the spec: the native create entry point. Opens the key,
creating it and any missing intermediate keys when absent; returns the new
root tree alongside the handle. -/
def key.create_hkey (hkey : Nat) (path : U16Str) (sec : Security) (tree : RegNode) :
    Except Error NativeHandle × RegNode :=
  (.ok ⟨hkey, splitPath path⟩, tree.createAt (splitPath path))

/-- Modelled from the spec: the native delete entry point. Fails with
not-found when the key is absent; when non-recursive it refuses a key with
child keys with the non-empty error; otherwise it removes the key and, in
the recursive case, its whole subtree. -/
def key.delete_hkey (hkey : Nat) (path : U16Str) (is_recursive : Bool) (tree : RegNode) :
    Except Error Unit × RegNode :=
  match tree.lookup (splitPath path) with
  | none => (.error .notFound, tree)
  | some sub =>
      if is_recursive then (.ok (), tree.deleteAt (splitPath path))
      else if sub.children.isEmpty then (.ok (), tree.deleteAt (splitPath path))
      else (.error .nonEmpty, tree)

/-- Modelled from the spec: the native load entry point. The file argument
is the hive image stored on disk at the given file path, none when no valid
hive file is there. Fails when the file is missing or the mount name is
already taken; otherwise mounts the image under the name. -/
def key.load_hkey (hkey : Nat) (name : U16Str) (path : U16Str)
    (file : Option RegNode) (tree : RegNode) : Except Error Unit × RegNode :=
  match file with
  | none => (.error .notFound, tree)
  | some image =>
      match tree.lookup (splitPath name) with
      | some _ => (.error .alreadyExists, tree)
      | none => (.ok (), tree.setAt (splitPath name) image)

/-- Modelled from the spec: the native unload entry point, the inverse of
load. Fails with not-found when nothing is mounted at the path; otherwise
detaches the mounted subtree. -/
def key.unload_hkey (hkey : Nat) (path : U16Str) (tree : RegNode) :
    Except Error Unit × RegNode :=
  match tree.lookup (splitPath path) with
  | none => (.error .notFound, tree)
  | some _ => (.ok (), tree.deleteAt (splitPath path))

/-- Modelled from the spec: the native save entry point, serializing the
tree under the given root to a hive-file image. -/
def key.save_hkey (hkey : Nat) (path : U16Str) (tree : RegNode) : Except Error RegNode :=
  .ok tree

/-- The outcome of one lifecycle operation: its returned result, the tree
under the targeted root afterwards, and how many native backend calls the
operation performed. -/
structure OpOut (α : Type) where
  result : Except Error α
  tree : RegNode
  calls : Nat

/-- The outcome of a write operation: its returned result, the hive-file
image written to the destination (none when nothing was written), and how
many native backend calls were performed. write never alters the tree. -/
structure WriteOut where
  result : Except Error Unit
  file : Option RegNode
  calls : Nat

/-- Hive::open (src/hive.rs, lines 40-51): converts the path through the
codec, short-circuiting on failure, then delegates to the native open and
wraps the handle into a RegKey carrying the hive and the encoded path. -/
def Hive.openKey (h : Hive) (path : U16Str) (sec : Security) (tree : RegNode) :
    OpOut RegKey :=
  match u16cstring_try_from path with
  | .error e => ⟨.error e, tree, 0⟩
  | .ok p =>
      match key.open_hkey h.as_hkey p sec tree with
      | .error e => ⟨.error e, tree, 1⟩
      | .ok handle => ⟨.ok ⟨h, handle, p⟩, tree, 1⟩

/-- Hive::create (src/hive.rs, lines 88-100): converts the path through the
codec, short-circuiting on failure, then delegates to the native create and
wraps the handle into a RegKey carrying the hive and the encoded path. -/
def Hive.create (h : Hive) (path : U16Str) (sec : Security) (tree : RegNode) :
    OpOut RegKey :=
  match u16cstring_try_from path with
  | .error e => ⟨.error e, tree, 0⟩
  | .ok p =>
      match key.create_hkey h.as_hkey p sec tree with
      | (r, t2) => ⟨r.map fun handle => ⟨h, handle, p⟩, t2, 1⟩

/-- Hive::delete (src/hive.rs, lines 102-110): converts the path through
the codec, short-circuiting on failure, then delegates to the native
delete. -/
def Hive.delete (h : Hive) (path : U16Str) (is_recursive : Bool) (tree : RegNode) :
    OpOut Unit :=
  match u16cstring_try_from path with
  | .error e => ⟨.error e, tree, 0⟩
  | .ok p =>
      match key.delete_hkey h.as_hkey p is_recursive tree with
      | (r, t2) => ⟨r, t2, 1⟩

/-- Hive::load (src/hive.rs, lines 53-65): converts the mount name through
the codec first, then the hive-file path, short-circuiting on either
failure, then delegates to the native load. -/
def Hive.load (h : Hive) (name : U16Str) (path : U16Str) (file : Option RegNode)
    (tree : RegNode) : OpOut Unit :=
  match u16cstring_try_from name with
  | .error e => ⟨.error e, tree, 0⟩
  | .ok n =>
      match u16cstring_try_from path with
      | .error e => ⟨.error e, tree, 0⟩
      | .ok p =>
          match key.load_hkey h.as_hkey n p file tree with
          | (r, t2) => ⟨r, t2, 1⟩

/-- Hive::unload (src/hive.rs, lines 67-76): converts the path through the
codec, short-circuiting on failure, then delegates to the native unload. -/
def Hive.unload (h : Hive) (path : U16Str) (tree : RegNode) : OpOut Unit :=
  match u16cstring_try_from path with
  | .error e => ⟨.error e, tree, 0⟩
  | .ok p =>
      match key.unload_hkey h.as_hkey p tree with
      | (r, t2) => ⟨r, t2, 1⟩

/-- Hive::write (src/hive.rs, lines 78-86): converts the file path through
the codec, short-circuiting on failure, then delegates to the native save,
recording the image written to the destination file. -/
def Hive.write (h : Hive) (file_path : U16Str) (tree : RegNode) : WriteOut :=
  match u16cstring_try_from file_path with
  | .error e => ⟨.error e, none, 0⟩
  | .ok p =>
      match key.save_hkey h.as_hkey p tree with
      | .error e => ⟨.error e, none, 1⟩
      | .ok image => ⟨.ok (), some image, 1⟩

/-- Looking up a name right after setChild bound it yields the bound subtree. -/
theorem findChild_setChild (cs : List (U16Str × RegNode)) (name : U16Str) (sub : RegNode) :
    findChild (setChild cs name sub) name = some sub := by
  induction cs with
  | nil => simp [setChild, findChild]
  | cons p rest ih =>
      obtain ⟨k, v⟩ := p
      by_cases hk : k = name
      · simp [setChild, findChild, hk]
      · simp [setChild, findChild, hk, ih]

/-- Rebinding a name to the subtree it already holds leaves the list unchanged. -/
theorem setChild_self (cs : List (U16Str × RegNode)) (name : U16Str) (sub : RegNode)
    (h : findChild cs name = some sub) : setChild cs name sub = cs := by
  induction cs with
  | nil => simp [findChild] at h
  | cons p rest ih =>
      obtain ⟨k, v⟩ := p
      by_cases hk : k = name
      · simp [findChild, hk] at h
        simp [setChild, hk, h]
      · simp [findChild, hk] at h
        simp [setChild, hk, ih h]

/-- After removeChild, the removed name no longer resolves. -/
theorem findChild_removeChild (cs : List (U16Str × RegNode)) (name : U16Str) :
    findChild (removeChild cs name) name = none := by
  induction cs with
  | nil => simp [removeChild, findChild]
  | cons p rest ih =>
      obtain ⟨k, v⟩ := p
      by_cases hk : k = name
      · simp [removeChild, hk, ih]
      · simp [removeChild, findChild, hk, ih]

/-- Path lookup splits along path concatenation. -/
theorem lookup_append (t : RegNode) (p q : List U16Str) :
    t.lookup (p ++ q) = (t.lookup p).bind fun u => u.lookup q := by
  induction p generalizing t with
  | nil => simp [RegNode.lookup]
  | cons name rest ih =>
      cases t with
      | mk cs =>
          cases hf : findChild cs name with
          | none => simp [RegNode.lookup, hf]
          | some c => simp [RegNode.lookup, hf, ih]

/-- Splitting an encoded path always yields at least one component. -/
theorem splitPath_ne_nil (l : U16Str) : splitPath l ≠ [] := by
  cases l with
  | nil => simp [splitPath]
  | cons c rest =>
      by_cases hc : c = 92
      · simp [splitPath, hc]
      · cases h : splitPath rest with
        | nil => simp [splitPath, hc, h]
        | cons a as => simp [splitPath, hc, h]

/-- The key just created by createAt resolves to some subtree. -/
theorem lookup_createAt (t : RegNode) (p : List U16Str) :
    ∃ u, (t.createAt p).lookup p = some u := by
  induction p generalizing t with
  | nil =>
      cases t with
      | mk cs => exact ⟨.mk cs, by simp [RegNode.createAt, RegNode.lookup]⟩
  | cons name rest ih =>
      cases t with
      | mk cs =>
          obtain ⟨u, hu⟩ := ih ((findChild cs name).getD (.mk []))
          exact ⟨u, by simp [RegNode.createAt, RegNode.lookup, findChild_setChild, hu]⟩

/-- createAt on a path whose key already exists leaves the tree unchanged. -/
theorem createAt_of_lookup (t u : RegNode) (p : List U16Str)
    (h : t.lookup p = some u) : t.createAt p = t := by
  induction p generalizing t with
  | nil =>
      cases t with
      | mk cs => simp [RegNode.createAt]
  | cons name rest ih =>
      cases t with
      | mk cs =>
          cases hf : findChild cs name with
          | none => simp [RegNode.lookup, hf] at h
          | some c =>
              simp [RegNode.lookup, hf] at h
              have h2 : c.createAt rest = c := ih c h
              simp [RegNode.createAt, hf, h2, setChild_self cs name c hf]

/-- createAt is idempotent. -/
theorem createAt_idem (t : RegNode) (p : List U16Str) :
    (t.createAt p).createAt p = t.createAt p := by
  obtain ⟨u, hu⟩ := lookup_createAt t p
  exact createAt_of_lookup (t.createAt p) u p hu

/-- The key removed by deleteAt no longer resolves. -/
theorem lookup_deleteAt (t : RegNode) (p : List U16Str) (hp : p ≠ []) :
    (t.deleteAt p).lookup p = none := by
  induction p generalizing t with
  | nil => exact absurd rfl hp
  | cons name rest ih =>
      cases t with
      | mk cs =>
          cases rest with
          | nil => simp [RegNode.deleteAt, RegNode.lookup, findChild_removeChild]
          | cons b bs =>
              cases hf : findChild cs name with
              | none => simp [RegNode.deleteAt, RegNode.lookup, hf]
              | some c =>
                  have hnone := ih c (List.cons_ne_nil b bs)
                  simp [RegNode.deleteAt, hf, RegNode.lookup, findChild_setChild, hnone]

/-- The subtree grafted by setAt resolves at the grafting path. -/
theorem lookup_setAt (t sub : RegNode) (p : List U16Str) (hp : p ≠ []) :
    (t.setAt p sub).lookup p = some sub := by
  induction p generalizing t with
  | nil => exact absurd rfl hp
  | cons name rest ih =>
      cases t with
      | mk cs =>
          cases rest with
          | nil => simp [RegNode.setAt, RegNode.lookup, findChild_setChild]
          | cons b bs =>
              have h2 := ih ((findChild cs name).getD (.mk [])) (List.cons_ne_nil b bs)
              simp [RegNode.setAt, RegNode.lookup, findChild_setChild, h2]

/-- C2: the mapping from Hive variant to native root handle (as_hkey) is a
pure total function of the variant alone, and it is injective: any two
distinct Hive variants have distinct native root handles. -/
theorem as_hkey_injective : ∀ a b : Hive, a.as_hkey = b.as_hkey → a = b := by
  decide

/-- Witness for as_hkey_injective at a concrete pair of hives. -/
theorem as_hkey_injective_witness :
    Hive.CurrentUser.as_hkey = Hive.CurrentUser.as_hkey ∧
      Hive.CurrentUser = Hive.CurrentUser :=
  ⟨rfl, as_hkey_injective Hive.CurrentUser Hive.CurrentUser rfl⟩

/-- C8: Display is pure and total with no failure mode: each of the seven
Hive variants renders to its documented well-known root-namespace name. -/
theorem hive_fmt_names :
    Hive.ClassesRoot.fmt = "HKEY_CLASSES_ROOT" ∧
    Hive.CurrentConfig.fmt = "HKEY_CURRENT_CONFIG" ∧
    Hive.CurrentUser.fmt = "HKEY_CURRENT_USER" ∧
    Hive.CurrentUserLocalSettings.fmt = "HKEY_CURRENT_USER_LOCAL_SETTINGS" ∧
    Hive.LocalMachine.fmt = "HKEY_LOCAL_MACHINE" ∧
    Hive.PerformanceData.fmt = "HKEY_PERFORMANCE_DATA" ∧
    Hive.Users.fmt = "HKEY_USERS" :=
  ⟨rfl, rfl, rfl, rfl, rfl, rfl, rfl⟩

/-- C9: Hive is a closed enumeration of exactly seven payload-free
variants: every value equals one of the seven listed tags (so a variant is
nothing but its tag), and the seven tags are pairwise distinct. -/
theorem hive_seven_variants :
    (∀ h : Hive, h = .ClassesRoot ∨ h = .CurrentConfig ∨ h = .CurrentUser ∨
      h = .CurrentUserLocalSettings ∨ h = .LocalMachine ∨ h = .PerformanceData ∨
      h = .Users) ∧
    ([Hive.ClassesRoot, .CurrentConfig, .CurrentUser, .CurrentUserLocalSettings,
      .LocalMachine, .PerformanceData, .Users] : List Hive).Nodup := by
  refine ⟨?_, ?_⟩
  · intro h
    cases h <;> simp
  · decide

/-- C1: for every lifecycle operation (open, create, delete, load, unload,
write) and every path-like input whose conversion to the wide form fails,
the operation returns that encoding failure as its Error, performs zero
native backend calls, and leaves the tree (and, for write, the destination
file) untouched. For load both argument positions are covered: a failing
mount name short-circuits, and a failing hive-file path after a convertible
name short-circuits too. -/
theorem encoding_failure_short_circuits (h : Hive) (p q q2 : U16Str) (sec : Security)
    (b : Bool) (file : Option RegNode) (tree : RegNode) (e : Error)
    (henc : u16cstring_try_from p = .error e)
    (hq : u16cstring_try_from q = .ok q2) :
    Hive.openKey h p sec tree = ⟨.error e, tree, 0⟩ ∧
    Hive.create h p sec tree = ⟨.error e, tree, 0⟩ ∧
    Hive.delete h p b tree = ⟨.error e, tree, 0⟩ ∧
    Hive.load h p q file tree = ⟨.error e, tree, 0⟩ ∧
    Hive.load h q p file tree = ⟨.error e, tree, 0⟩ ∧
    Hive.unload h p tree = ⟨.error e, tree, 0⟩ ∧
    Hive.write h p tree = ⟨.error e, none, 0⟩ := by
  refine ⟨?_, ?_, ?_, ?_, ?_, ?_, ?_⟩ <;>
    simp [Hive.openKey, Hive.create, Hive.delete, Hive.load, Hive.unload, Hive.write,
      henc, hq]

/-- Witness for encoding_failure_short_circuits at a concrete input with an
embedded terminator. -/
theorem encoding_failure_short_circuits_witness :
    u16cstring_try_from [0] = .error (.nulError 0) ∧
    u16cstring_try_from [65] = .ok [65] ∧
    Hive.openKey Hive.CurrentUser [0] ⟨1⟩ (.mk []) = ⟨.error (.nulError 0), .mk [], 0⟩ :=
  ⟨rfl, rfl,
    (encoding_failure_short_circuits Hive.CurrentUser [0] [65] [65] ⟨1⟩ false none
      (.mk []) (.nulError 0) rfl rfl).1⟩

/-- C10: Hive::load converts the mount name before the hive-file path: when
the name fails to convert, the returned error is the nul error arising from
the name, no native call is made and no state changes, and the outcome does
not depend on the path argument at all (so the path conversion can have no
observable effect); in particular with two unencodable inputs the reported
error is the one arising from the name. -/
theorem load_converts_name_first (h : Hive) (name path : U16Str)
    (file : Option RegNode) (tree : RegNode) (e : Error)
    (hname : u16cstring_try_from name = .error e) :
    Hive.load h name path file tree = ⟨.error e, tree, 0⟩ ∧
    ∀ path2 : U16Str, Hive.load h name path2 file tree = Hive.load h name path file tree := by
  constructor
  · simp [Hive.load, hname]
  · intro path2
    simp [Hive.load, hname]

/-- Witness for load_converts_name_first: the name has its terminator at
position 0, the path would report position 1, and the name error wins. -/
theorem load_converts_name_first_witness :
    u16cstring_try_from [0] = .error (.nulError 0) ∧
    Hive.load Hive.LocalMachine [0] [65, 0] none (.mk [])
      = ⟨.error (.nulError 0), .mk [], 0⟩ :=
  ⟨rfl, (load_converts_name_first Hive.LocalMachine [0] [65, 0] none (.mk [])
    (.nulError 0) rfl).1⟩

/-- C3: whenever open or create succeeds, the returned Key Handle carries
exactly the originating Hive the operation was invoked on, the native
handle returned by the backend, and the encoded path the codec produced
from the input. -/
theorem open_create_handle_fields (h : Hive) (p : U16Str) (sec : Security)
    (tree : RegNode) :
    (∀ k : RegKey, (Hive.openKey h p sec tree).result = .ok k →
      k.hive = h ∧ u16cstring_try_from p = .ok k.path ∧
      key.open_hkey h.as_hkey k.path sec tree = .ok k.handle) ∧
    (∀ k : RegKey, (Hive.create h p sec tree).result = .ok k →
      k.hive = h ∧ u16cstring_try_from p = .ok k.path ∧
      (key.create_hkey h.as_hkey k.path sec tree).1 = .ok k.handle) := by
  constructor
  · intro k hk
    obtain ⟨kh, kn, kp⟩ := k
    cases hp : u16cstring_try_from p with
    | error e => simp [Hive.openKey, hp] at hk
    | ok p2 =>
        cases ho : key.open_hkey h.as_hkey p2 sec tree with
        | error e => simp [Hive.openKey, hp, ho] at hk
        | ok handle =>
            simp [Hive.openKey, hp, ho] at hk
            obtain ⟨e1, e2, e3⟩ := hk
            subst e1
            subst e2
            subst e3
            exact ⟨rfl, rfl, ho⟩
  · intro k hk
    obtain ⟨kh, kn, kp⟩ := k
    cases hp : u16cstring_try_from p with
    | error e => simp [Hive.create, hp] at hk
    | ok p2 =>
        simp [Hive.create, hp, key.create_hkey, Except.map] at hk
        obtain ⟨f1, f2, f3⟩ := hk
        subst f1
        subst f2
        subst f3
        exact ⟨rfl, rfl, rfl⟩

/-- Witness for open_create_handle_fields: the open part at a tree holding
the requested key, and the create part on the empty tree, where the key is
created fresh. -/
theorem open_create_handle_fields_witness :
    (Hive.openKey Hive.CurrentUser [65] ⟨1⟩ (.mk [([65], .mk [])])).result
      = .ok ⟨Hive.CurrentUser, ⟨0x80000001, [[65]]⟩, [65]⟩ ∧
    (Hive.create Hive.CurrentUser [65] ⟨1⟩ (.mk [])).result
      = .ok ⟨Hive.CurrentUser, ⟨0x80000001, [[65]]⟩, [65]⟩ ∧
    ((RegKey.mk Hive.CurrentUser ⟨0x80000001, [[65]]⟩ [65]).hive = Hive.CurrentUser ∧
      u16cstring_try_from [65]
        = .ok (RegKey.mk Hive.CurrentUser ⟨0x80000001, [[65]]⟩ [65]).path ∧
      key.open_hkey Hive.CurrentUser.as_hkey
        (RegKey.mk Hive.CurrentUser ⟨0x80000001, [[65]]⟩ [65]).path ⟨1⟩ (.mk [([65], .mk [])])
        = .ok (RegKey.mk Hive.CurrentUser ⟨0x80000001, [[65]]⟩ [65]).handle) ∧
    ((RegKey.mk Hive.CurrentUser ⟨0x80000001, [[65]]⟩ [65]).hive = Hive.CurrentUser ∧
      u16cstring_try_from [65]
        = .ok (RegKey.mk Hive.CurrentUser ⟨0x80000001, [[65]]⟩ [65]).path ∧
      (key.create_hkey Hive.CurrentUser.as_hkey
        (RegKey.mk Hive.CurrentUser ⟨0x80000001, [[65]]⟩ [65]).path ⟨1⟩ (.mk [])).1
        = .ok (RegKey.mk Hive.CurrentUser ⟨0x80000001, [[65]]⟩ [65]).handle) :=
  ⟨rfl, rfl,
    (open_create_handle_fields Hive.CurrentUser [65] ⟨1⟩ (.mk [([65], .mk [])])).1
      ⟨Hive.CurrentUser, ⟨0x80000001, [[65]]⟩, [65]⟩ rfl,
    (open_create_handle_fields Hive.CurrentUser [65] ⟨1⟩ (.mk [])).2
      ⟨Hive.CurrentUser, ⟨0x80000001, [[65]]⟩, [65]⟩ rfl⟩

/-- C4: create is idempotent with respect to pre-existing keys: with a
convertible path, create succeeds, a second create with the same hive, path
and security on the tree the first one produced succeeds again, both
resulting handles refer to the same key, and the second create leaves the
tree exactly as the first left it. -/
theorem create_idempotent (h : Hive) (p p2 : U16Str) (sec : Security) (tree : RegNode)
    (henc : u16cstring_try_from p = .ok p2) :
    ∃ k1 k2 : RegKey,
      (Hive.create h p sec tree).result = .ok k1 ∧
      (Hive.create h p sec (Hive.create h p sec tree).tree).result = .ok k2 ∧
      k1.handle = k2.handle ∧
      (Hive.create h p sec (Hive.create h p sec tree).tree).tree
        = (Hive.create h p sec tree).tree := by
  refine ⟨⟨h, ⟨h.as_hkey, splitPath p2⟩, p2⟩, ⟨h, ⟨h.as_hkey, splitPath p2⟩, p2⟩,
    ?_, ?_, rfl, ?_⟩
  · simp [Hive.create, henc, key.create_hkey, Except.map]
  · simp [Hive.create, henc, key.create_hkey, Except.map]
  · simp [Hive.create, henc, key.create_hkey, createAt_idem]

/-- Witness for create_idempotent starting from the empty tree. -/
theorem create_idempotent_witness :
    u16cstring_try_from [65] = .ok [65] ∧
    ∃ k1 k2 : RegKey,
      (Hive.create Hive.CurrentUser [65] ⟨1⟩ (.mk [])).result = .ok k1 ∧
      (Hive.create Hive.CurrentUser [65] ⟨1⟩
        (Hive.create Hive.CurrentUser [65] ⟨1⟩ (.mk [])).tree).result = .ok k2 ∧
      k1.handle = k2.handle ∧
      (Hive.create Hive.CurrentUser [65] ⟨1⟩
        (Hive.create Hive.CurrentUser [65] ⟨1⟩ (.mk [])).tree).tree
        = (Hive.create Hive.CurrentUser [65] ⟨1⟩ (.mk [])).tree :=
  ⟨rfl, create_idempotent Hive.CurrentUser [65] [65] ⟨1⟩ (.mk []) rfl⟩

/-- C5: delete with is_recursive false on a key that has at least one
child key fails with the non-empty error and leaves the registry tree
unchanged (one native call is made, removing nothing). -/
theorem delete_nonrecursive_nonempty (h : Hive) (p p2 : U16Str) (tree sub : RegNode)
    (henc : u16cstring_try_from p = .ok p2)
    (hsub : tree.lookup (splitPath p2) = some sub)
    (hchild : sub.children ≠ []) :
    Hive.delete h p false tree = ⟨.error .nonEmpty, tree, 1⟩ := by
  have hne : sub.children.isEmpty = false := by
    cases hc : sub.children with
    | nil => exact absurd hc hchild
    | cons a as => rfl
  simp [Hive.delete, henc, key.delete_hkey, hsub, hne]

/-- Witness for delete_nonrecursive_nonempty on a key with one child. -/
theorem delete_nonrecursive_nonempty_witness :
    u16cstring_try_from [65] = .ok [65] ∧
    RegNode.lookup (.mk [([65], .mk [([66], .mk [])])]) (splitPath [65])
      = some (.mk [([66], .mk [])]) ∧
    (RegNode.mk [([66], .mk [])]).children ≠ [] ∧
    Hive.delete Hive.LocalMachine [65] false (.mk [([65], .mk [([66], .mk [])])])
      = ⟨.error .nonEmpty, .mk [([65], .mk [([66], .mk [])])], 1⟩ :=
  ⟨rfl, rfl, by simp [RegNode.children],
    delete_nonrecursive_nonempty Hive.LocalMachine [65] [65]
      (.mk [([65], .mk [([66], .mk [])])]) (.mk [([66], .mk [])]) rfl rfl
      (by simp [RegNode.children])⟩

/-- C6: when recursive delete succeeds, the key and every descendant key
are removed from the tree (no component path extending the deleted path
resolves any longer), and a subsequent open on the same path under the same
hive fails with the not-found error. -/
theorem delete_recursive_removes (h : Hive) (p p2 : U16Str) (sec : Security)
    (tree : RegNode)
    (henc : u16cstring_try_from p = .ok p2)
    (hdel : (Hive.delete h p true tree).result = .ok ()) :
    (∀ q : List U16Str,
      (Hive.delete h p true tree).tree.lookup (splitPath p2 ++ q) = none) ∧
    (Hive.openKey h p sec (Hive.delete h p true tree).tree).result = .error .notFound := by
  cases hl : tree.lookup (splitPath p2) with
  | none => simp [Hive.delete, henc, key.delete_hkey, hl] at hdel
  | some sub =>
      have htree : (Hive.delete h p true tree).tree = tree.deleteAt (splitPath p2) := by
        simp [Hive.delete, henc, key.delete_hkey, hl]
      have hlook : (tree.deleteAt (splitPath p2)).lookup (splitPath p2) = none :=
        lookup_deleteAt tree (splitPath p2) (splitPath_ne_nil p2)
      constructor
      · intro q
        rw [htree, lookup_append, hlook]
        rfl
      · rw [htree]
        simp [Hive.openKey, henc, key.open_hkey, hlook]

/-- Witness for delete_recursive_removes on a key with one descendant. -/
theorem delete_recursive_removes_witness :
    u16cstring_try_from [65] = .ok [65] ∧
    (Hive.delete Hive.CurrentUser [65] true (.mk [([65], .mk [([66], .mk [])])])).result
      = .ok () ∧
    (Hive.openKey Hive.CurrentUser [65] ⟨1⟩
      (Hive.delete Hive.CurrentUser [65] true
        (.mk [([65], .mk [([66], .mk [])])])).tree).result = .error .notFound :=
  ⟨rfl, rfl,
    (delete_recursive_removes Hive.CurrentUser [65] [65] ⟨1⟩
      (.mk [([65], .mk [([66], .mk [])])]) rfl rfl).2⟩

/-- C7: write followed by load round-trips: a successful write of hive X
produces the hive-file image of the tree under X, and a successful load of
that file under hive Y at a free convertible mount name makes a key named
name appear under Y whose subtree is structurally equal to the tree
originally written from X. -/
theorem write_load_roundtrip (x y : Hive) (fp fp2 lp lp2 name n2 : U16Str)
    (treeX treeY : RegNode)
    (hfp : u16cstring_try_from fp = .ok fp2)
    (hlp : u16cstring_try_from lp = .ok lp2)
    (hn : u16cstring_try_from name = .ok n2)
    (hfree : treeY.lookup (splitPath n2) = none) :
    (Hive.write x fp treeX).result = .ok () ∧
    (Hive.write x fp treeX).file = some treeX ∧
    (Hive.load y name lp (Hive.write x fp treeX).file treeY).result = .ok () ∧
    (Hive.load y name lp (Hive.write x fp treeX).file treeY).tree.lookup (splitPath n2)
      = some treeX := by
  have hw : Hive.write x fp treeX = ⟨.ok (), some treeX, 1⟩ := by
    simp [Hive.write, hfp, key.save_hkey]
  refine ⟨by rw [hw], by rw [hw], ?_, ?_⟩
  · rw [hw]
    simp [Hive.load, hn, hlp, key.load_hkey, hfree]
  · rw [hw]
    simp [Hive.load, hn, hlp, key.load_hkey, hfree,
      lookup_setAt treeY treeX (splitPath n2) (splitPath_ne_nil n2)]

/-- Witness for write_load_roundtrip with a one-key subtree moved from
CurrentUser to a fresh mount name under LocalMachine. -/
theorem write_load_roundtrip_witness :
    u16cstring_try_from [70] = .ok [70] ∧
    u16cstring_try_from [77] = .ok [77] ∧
    RegNode.lookup (.mk []) (splitPath [77]) = none ∧
    ((Hive.write Hive.CurrentUser [70] (.mk [([65], .mk [])])).result = .ok () ∧
      (Hive.write Hive.CurrentUser [70] (.mk [([65], .mk [])])).file
        = some (.mk [([65], .mk [])]) ∧
      (Hive.load Hive.LocalMachine [77] [70]
        (Hive.write Hive.CurrentUser [70] (.mk [([65], .mk [])])).file (.mk [])).result
        = .ok () ∧
      (Hive.load Hive.LocalMachine [77] [70]
        (Hive.write Hive.CurrentUser [70] (.mk [([65], .mk [])])).file
        (.mk [])).tree.lookup (splitPath [77]) = some (.mk [([65], .mk [])])) :=
  ⟨rfl, rfl, rfl,
    write_load_roundtrip Hive.CurrentUser Hive.LocalMachine [70] [70] [70] [70] [77] [77]
      (.mk [([65], .mk [])]) (.mk []) rfl rfl rfl rfl⟩

end Winreg
